import Mathlib

/-
Verification of the streaming-spectrogram core of the spectro repository against
its specification.  The TypeScript sources are shallowly embedded: JS numbers
that only ever hold integers become Nat/Int, other numeric values become ℚ,
typed arrays become total functions ℕ → ℚ together with explicit lengths,
and code that can throw returns Except.  JS mod(x, y) = ((x % y) + y) % y
agrees with Nat.mod on the nonnegative arguments that occur in every claim,
so buffer indices use Nat.mod.  Definitions come first, then the theorems.
-/

namespace Spectro

/-- Linear interpolation, from math-util.ts: a + t * (b - a). -/
def lerp (a b t : ℚ) : ℚ := a + t * (b - a)

/-- Models TypedArray.set(src.subarray(0, len), off): overwrite the
len entries starting at off with src, leaving the rest of d. -/
def writeChunk (d : ℕ → ℚ) (off : ℕ) (src : ℕ → ℚ) (len : ℕ) : ℕ → ℚ :=
  fun a => if off ≤ a ∧ a < off + len then src (a - off) else d a

/-- Models a for-loop over i < n whose body copies the len-entry chunk
src i to offset off i, in increasing i order. -/
def writeLoop (n : ℕ) (off : ℕ → ℕ) (src : ℕ → ℕ → ℚ) (len : ℕ)
    (d0 : ℕ → ℚ) : ℕ → ℚ :=
  (List.range n).foldl (fun d i => writeChunk d (off i) (src i) len) d0

/-- The circular queue of 2D data from math-util.ts.  data is the backing
typed array viewed as a total function (typed arrays are zero-initialised
and the code never reads outside width * height). -/
structure Circular2DBuffer where
  width : ℕ
  height : ℕ
  elementSize : ℕ
  start : ℕ
  length : ℕ
  data : ℕ → ℚ

/-- Constructor call new Circular2DBuffer(Type, width, height, elementSize)
with the default start = 0, length = 0; the fresh typed array is all
zeros. -/
def mkBuffer (width height elementSize : ℕ) : Circular2DBuffer :=
  ⟨width, height, elementSize, 0, 0, fun _ => 0⟩

/-- Circular2DBuffer.enqueue.  The input array is given as a function plus
its length; dataWidth = inputLen / (elementSize * height) as in the source
(the claims only concern whole-column inputs, where JS division is exact
and agrees with Nat division).  Each column i is copied to x * height with
x = (start + length + i) mod width, then length is bumped and, on
overflow, clamped to width while start advances by the overflow. -/
def enqueue (b : Circular2DBuffer) (input : ℕ → ℚ) (inputLen : ℕ) :
    Circular2DBuffer :=
  let dataWidth := inputLen / (b.elementSize * b.height)
  let newData := writeLoop dataWidth
    (fun i => ((b.start + b.length + i) % b.width) * b.height)
    (fun i j => input (i * b.height + j))
    b.height b.data
  let len := b.length + dataWidth
  if b.width < len then
    { b with data := newData,
             start := (b.start + len - b.width) % b.width,
             length := b.width }
  else
    { b with data := newData, length := len }

/-- Circular2DBuffer.resizeWidth.  Early-returns when the width is
unchanged; otherwise copies the min(length, width) newest columns into a
fresh zeroed array, newest aligned to the tail, clamps length and resets
start to 0. -/
def resizeWidth (b : Circular2DBuffer) (w : ℕ) : Circular2DBuffer :=
  if w = b.width then b
  else
    let m := min b.length w
    let newData := writeLoop m
      (fun i => (m - i - 1) * b.height)
      (fun i j => b.data (((b.start + b.length - i - 1) % b.width) * b.height + j))
      b.height (fun _ => 0)
    { b with data := newData, width := w, start := 0, length := m }

/-- Circular2DBuffer.clear: fresh zeroed array, start = 0, length = 0. -/
def clear (b : Circular2DBuffer) : Circular2DBuffer :=
  { b with data := fun _ => 0, start := 0, length := 0 }

/-- Logical column p of the buffer: entry j lives at physical column
(start + p) mod width, offset j (the layout used by every access in
math-util.ts and the renderer). -/
def getColumn (b : Circular2DBuffer) (p j : ℕ) : ℚ :=
  b.data (((b.start + p) % b.width) * b.height + j)

/-- One mutating operation on a Circular2DBuffer, for reachability
statements. -/
inductive BufOp where
  | enq (input : ℕ → ℚ) (inputLen : ℕ)
  | resize (w : ℕ)
  | clr

def applyOp (b : Circular2DBuffer) : BufOp → Circular2DBuffer
  | .enq input inputLen => enqueue b input inputLen
  | .resize w => resizeWidth b w
  | .clr => clear b

def applyOps (b : Circular2DBuffer) (ops : List BufOp) : Circular2DBuffer :=
  ops.foldl applyOp b

/-- Side condition for the amended invariant claim: resize targets must be
positive (resizeWidth(0) necessarily breaks start < width). -/
def opWidthPositive : BufOp → Bool
  | .resize w => decide (0 < w)
  | _ => true

/-- The buffer invariant of claim C6: 0 ≤ start < width and
0 ≤ length ≤ width (the lower bounds are automatic over ℕ). -/
@[reducible] def BufInv (b : Circular2DBuffer) : Prop :=
  b.start < b.width ∧ b.length ≤ b.width

/-- Concrete buffer for the C3 counterexample: width 2, height 1,
start 1, length 2 (the state reached by enqueueing three columns into a
fresh width-2 buffer). -/
def resizeNoopCex : Circular2DBuffer := ⟨2, 1, 1, 1, 2, fun _ => 0⟩

/-- Concrete buffer for the C3 witness: width 3, height 1, start 1,
length 3, holding 10, 20, 30 chronologically (physical columns 1, 2, 0). -/
def resizeWitnessBuf : Circular2DBuffer :=
  ⟨3, 1, 1, 1, 3, fun a => if a = 0 then 30 else if a = 1 then 10 else 20⟩

/-- Concrete buffer for the C2 witness: width 3, height 2, start 0,
length 2, holding columns [1,2] and [3,4]. -/
def enqueueWitnessBuf : Circular2DBuffer :=
  ⟨3, 2, 1, 0, 2, fun a => if a < 4 then a + 1 else 0⟩

/-- Input of the C2 witness: two columns [5,6] and [7,8]. -/
def enqueueWitnessInput : ℕ → ℚ := fun a => a + 5

/-- Operation list for the C6 witness. -/
def c6WitnessOps : List BufOp :=
  [BufOp.enq (fun _ => 1) 3, BufOp.resize 2, BufOp.clr]

/-- The texture-upload state of SpectrogramGPURenderer that
updateSpectrogram reads and writes: the GPU texture contents (one texel
per buffer entry, zero-initialised by createSpectrogramTexture) and the
lastSpectrogramStart / lastSpectrogramLength bookkeeping.  The
spectrogramOffset / spectrogramLength uniforms are not modelled: claim C4
is only about texture contents. -/
structure UploadState where
  texture : ℕ → ℚ
  lastStart : Option ℕ
  lastLength : ℕ

/-- Renderer construction: texture all zeros, lastSpectrogramStart null,
lastSpectrogramLength 0. -/
def initUploadState : UploadState := ⟨fun _ => 0, none, 0⟩

/-- Models updateSpectrogramPartial, i.e. texSubImage2D writing rows
[dataStart, dataStart + rows) of width h from
data.subarray(dataStart * h, (dataStart + rows) * h): an address-identical
copy of that range from the buffer data into the texture. -/
def texSub (tex dat : ℕ → ℚ) (h rows dataStart : ℕ) : ℕ → ℚ :=
  fun a => if dataStart * h ≤ a ∧ a < (dataStart + rows) * h then dat a else tex a

/-- SpectrogramGPURenderer.updateSpectrogram: full texImage2D upload when
forced or on the first call; otherwise, if start moved without wrapping,
one sub-upload of [lastStart, start); if it wrapped, sub-uploads of
[0, start) and [lastStart, width); if only length grew, one sub-upload of
[lastLength, length). -/
def updateSpectrogram (r : UploadState) (q : Circular2DBuffer)
    (forceFullRender : Bool) : UploadState :=
  let tex :=
    match forceFullRender, r.lastStart with
    | true, _ => q.data
    | false, none => q.data
    | false, some ls =>
      if q.start ≠ ls then
        if ls ≤ q.start then
          texSub r.texture q.data q.height (q.start - ls) ls
        else
          texSub (texSub r.texture q.data q.height q.start 0)
            q.data q.height (q.width - ls) ls
      else if r.lastLength < q.length then
        texSub r.texture q.data q.height (q.length - r.lastLength) r.lastLength
      else r.texture
  { texture := tex, lastStart := some q.start, lastLength := q.length }

/-- First enqueue input of the C4 trace: columns [1] and [2]. -/
def c4Input1 : ℕ → ℚ := fun a => if a = 0 then 1 else 2

/-- Second enqueue input of the C4 trace: columns [3] and [4]. -/
def c4Input2 : ℕ → ℚ := fun a => if a = 0 then 3 else 4

/-- Width-3, height-1 buffer after enqueueing columns 1, 2:
start 0, length 2, data [1, 2, 0]. -/
def c4Buf1 : Circular2DBuffer := enqueue (mkBuffer 3 1 1) c4Input1 2

/-- The same buffer after enqueueing columns 3, 4: the buffer crosses from
not-full to overflow, giving start 1, length 3, data [4, 2, 3]. -/
def c4Buf2 : Circular2DBuffer := enqueue c4Buf1 c4Input2 2

/-- Upload state after the first (full) upload of c4Buf1. -/
def c4State1 : UploadState := updateSpectrogram initUploadState c4Buf1 false

/-- Upload state after the partial upload triggered by c4Buf2. -/
def c4State2 : UploadState := updateSpectrogram c4State1 c4Buf2 false

/-- One colour stop of a gradient from color-util.ts. -/
structure GradientStop where
  stop : ℚ
  red : ℕ
  green : ℕ
  blue : ℕ

/-- Gradient type from color-util.ts. -/
abbrev Gradient := List GradientStop

/-- HEATED_METAL_GRADIENT from color-util.ts. -/
def HEATED_METAL_GRADIENT : Gradient :=
  [⟨0, 0, 0, 0⟩, ⟨3/10, 128, 0, 128⟩, ⟨13/20, 255, 0, 0⟩,
   ⟨9/10, 255, 255, 0⟩, ⟨1, 255, 255, 255⟩]

/-- RenderParameters from spectrogram-render.ts. -/
structure RenderParameters where
  contrast : ℚ
  sensitivity : ℚ
  zoom : ℚ
  minFrequencyHz : ℚ
  maxFrequencyHz : ℚ
  sampleRate : ℚ
  windowSize : ℚ
  scale : String
  gradient : Gradient

/-- A Partial RenderParameters object: absent (undefined/null) fields are
none. -/
structure RenderParametersPatch where
  contrast : Option ℚ := none
  sensitivity : Option ℚ := none
  zoom : Option ℚ := none
  minFrequencyHz : Option ℚ := none
  maxFrequencyHz : Option ℚ := none
  sampleRate : Option ℚ := none
  windowSize : Option ℚ := none
  scale : Option String := none
  gradient : Option Gradient := none

/-- The merge helper of spectrogram-render.ts: newValue unless
undefined/null, else oldValue unless undefined/null, else defaultValue. -/
def merge {α : Type} (newValue oldValue : Option α) (defaultValue : α) : α :=
  match newValue with
  | some v => v
  | none =>
    match oldValue with
    | some v => v
    | none => defaultValue

/-- The snapshot-merging part of updateParameters: each field merged from
the patch, the previous snapshot (this.parameters, none before the first
call) and the hard default. -/
def updateParametersMerge (p : RenderParametersPatch)
    (old : Option RenderParameters) : RenderParameters :=
  { contrast := merge p.contrast (old.map RenderParameters.contrast) 25,
    sensitivity := merge p.sensitivity (old.map RenderParameters.sensitivity) 25,
    zoom := merge p.zoom (old.map RenderParameters.zoom) 4,
    minFrequencyHz := merge p.minFrequencyHz (old.map RenderParameters.minFrequencyHz) 10,
    maxFrequencyHz := merge p.maxFrequencyHz (old.map RenderParameters.maxFrequencyHz) 12000,
    sampleRate := merge p.sampleRate (old.map RenderParameters.sampleRate) 48000,
    windowSize := merge p.windowSize (old.map RenderParameters.windowSize) 4096,
    scale := merge p.scale (old.map RenderParameters.scale) "mel",
    gradient := merge p.gradient (old.map RenderParameters.gradient) HEATED_METAL_GRADIENT }

/-- stepTowards from spectrogram-render.ts: snap to the target when within
1e-9, otherwise lerp by the given amount. -/
def stepTowards (x y amount : ℚ) : ℚ :=
  if |x - y| < 1 / 1000000000 then y else lerp x y amount

/-- The smoothed render parameters (currentScaleRange, currentContrast,
currentSensitivity, currentZoom). -/
structure SmoothState where
  scaleRange0 : ℚ
  scaleRange1 : ℚ
  contrast : ℚ
  sensitivity : ℚ
  zoom : ℚ

/-- Their targets (this.scaleRange and parameters.contrast / sensitivity /
zoom). -/
structure SmoothTargets where
  scaleRange0 : ℚ
  scaleRange1 : ℚ
  contrast : ℚ
  sensitivity : ℚ
  zoom : ℚ

/-- The parameter-smoothing block of SpectrogramGPURenderer.render: every
smoothed parameter advances by stepTowards with LERP_AMOUNT = 0.5, and the
advanced contrast is then forced to exactly 0 when below 0.05. -/
def renderSmoothStep (s : SmoothState) (t : SmoothTargets) : SmoothState :=
  let c := stepTowards s.contrast t.contrast (1/2)
  { scaleRange0 := stepTowards s.scaleRange0 t.scaleRange0 (1/2),
    scaleRange1 := stepTowards s.scaleRange1 t.scaleRange1 (1/2),
    contrast := if c < 1/20 then 0 else c,
    sensitivity := stepTowards s.sensitivity t.sensitivity (1/2),
    zoom := stepTowards s.zoom t.zoom (1/2) }

/-- Rest state for the C8 counterexample: current contrast equals the
target contrast 1/25 = 0.04, which lies in (0, 0.05). -/
def c8CexState : SmoothState := ⟨0, 0, 1/25, 25, 4⟩

/-- Matching targets for the C8 counterexample. -/
def c8CexTargets : SmoothTargets := ⟨0, 0, 1/25, 25, 4⟩

/-- Rest state for the C8 witness (contrast 25 is at rest and ≥ 0.05). -/
def c8WitnessState : SmoothState := ⟨1/2, 1, 25, 25, 4⟩

/-- Matching targets for the C8 witness. -/
def c8WitnessTargets : SmoothTargets := ⟨1/2, 1, 25, 25, 4⟩

/-- SpectrogramOptions from spectrogram.ts, with the destructuring defaults
of the source; optional numeric fields are none when absent.  scale is carried
as a string because the unknown-scale branch is about runtime values. -/
structure SpectrogramOptions where
  isStart : Bool := false
  isEnd : Bool := false
  windowSize : ℕ := 4096
  windowStepSize : ℕ := 1024
  minFrequencyHz : Option ℚ := none
  maxFrequencyHz : Option ℚ := none
  sampleRate : ℚ
  scale : String := "linear"
  scaleSize : Option ℕ := none

/-- The outputs of generateSpectrogram needed by the claims: the returned
windowCount, the starting sample index of the first window, and the zero-padded
samples fed to each FFT window (windowAt m j is sample j of window m).
The per-window spectral numerics (Blackman-Harris window, FFT, bin
resampling) are not modelled; no claim depends on them. -/
structure SpectrogramResult where
  windowCount : ℤ
  startIdx : ℤ
  windowAt : ℕ → ℕ → ℚ

/-- The sample fed to a window at absolute index idx: zero outside
[samplesStart, samplesStart + samplesLength), as in the inner copy loop of
generateSpectrogram. -/
def windowSample (samples : ℤ → ℚ) (sStart sLen : ℕ) (idx : ℤ) : ℚ :=
  if idx < (sStart : ℤ) ∨ (sStart : ℤ) + (sLen : ℤ) ≤ idx then 0 else samples idx

/-- Math.ceil(l / s) for naturals (s > 0). -/
def ceilDivNat (l s : ℕ) : ℕ := (l + s - 1) / s

/-- scaleSize after its default: windowSize / 2 when absent. -/
def resolvedScaleSize (o : SpectrogramOptions) : ℕ :=
  o.scaleSize.getD (o.windowSize / 2)

/-- additionalWindows = Math.floor(windowSize / windowStepSize) - 1. -/
def additionalWindows (o : SpectrogramOptions) : ℤ :=
  ((o.windowSize / o.windowStepSize : ℕ) : ℤ) - 1

/-- numWindows as computed by generateSpectrogram:
ceil(samplesLength / step) - floor(windowSize / step) + 1, plus
additionalWindows for each of isStart and isEnd. -/
def numWindowsOf (sLen : ℕ) (o : SpectrogramOptions) : ℤ :=
  ((ceilDivNat sLen o.windowStepSize : ℕ) : ℤ)
    - ((o.windowSize / o.windowStepSize : ℕ) : ℤ) + 1
    + (if o.isStart then additionalWindows o else 0)
    + (if o.isEnd then additionalWindows o else 0)

/-- startIdx as computed by generateSpectrogram: samplesStart, moved back by
additionalWindows * windowStepSize when isStart. -/
def startIdxOf (sStart : ℕ) (o : SpectrogramOptions) : ℤ :=
  (sStart : ℤ) - (if o.isStart then additionalWindows o * o.windowStepSize else 0)

/-- generateSpectrogram from spectrogram.ts, reduced to the data the claims
are about.  Error behaviour mirrors the source in order: the divisibility
check throws first (JS windowSize % 0 is NaN, so windowStepSize = 0 also
throws there); new Float32Array(scaleSize * numWindows) throws a
RangeError when that product is negative; the unknown-scale throw happens
on the first bin of the first window, which executes exactly when
numWindows and scaleSize are both positive.  The resolved
minFrequencyHz / maxFrequencyHz defaults only feed the unmodelled spectral
numerics and are omitted. -/
def generateSpectrogram (samples : ℤ → ℚ) (sStart sLen : ℕ)
    (o : SpectrogramOptions) : Except String SpectrogramResult :=
  if o.windowStepSize = 0 ∨ o.windowSize % o.windowStepSize ≠ 0 then
    .error "Window step size must be evenly divisible by the window size"
  else if numWindowsOf sLen o * (resolvedScaleSize o : ℤ) < 0 then
    .error "Invalid typed array length"
  else if 0 < numWindowsOf sLen o ∧ 0 < resolvedScaleSize o ∧
      ¬(o.scale = "linear" ∨ o.scale = "mel") then
    .error "Unknown scale"
  else
    .ok { windowCount := numWindowsOf sLen o,
          startIdx := startIdxOf sStart o,
          windowAt := fun m j =>
            windowSample samples sStart sLen
              (startIdxOf sStart o + (m : ℤ) * (o.windowStepSize : ℤ) + (j : ℤ)) }

/-- Boolean success test on the embedded result. -/
def exceptIsOk (e : Except String SpectrogramResult) : Bool :=
  match e with
  | .ok _ => true
  | .error _ => false

/-- Constant sample stream for the C1 witness. -/
def c1Samples : ℤ → ℚ := fun _ => 1

/-- Options for the C1 witness: windowSize 4, step 2, isStart set. -/
def c1Opts : SpectrogramOptions :=
  { sampleRate := 48000, windowSize := 4, windowStepSize := 2,
    isStart := true, scale := "linear" }

/-- The successful result of the C1 witness call. -/
def c1Result : SpectrogramResult :=
  match generateSpectrogram c1Samples 0 4 c1Opts with
  | .ok r => r
  | .error _ => ⟨0, 0, fun _ _ => 0⟩

/-- Options for the C5 counterexample and witness: an unrecognized scale
with a step that evenly divides the window size. -/
def c5Opts : SpectrogramOptions :=
  { sampleRate := 48000, windowSize := 1024, windowStepSize := 1024,
    scale := "log" }

/-- Number of busy workers: WORKER_POOL entries with busy = true. -/
def busyCount (pool : List Bool) : ℕ := pool.count true

/-- WORKER_POOL.find(w => !w.busy): index of the first free slot. -/
def firstFree : List Bool → Option ℕ
  | [] => none
  | b :: rest => if b then (firstFree rest).map (· + 1) else some 0

/-- State of the worker pool: the busy flags of WORKER_POOL, the FIFO
WORKER_QUEUE of pending requests, plus ghost counters (submitted, started,
completed request counts) used only to state the claims; requests are
identified by their submission index. -/
structure PoolState where
  pool : List Bool
  queue : List ℕ
  submitted : ℕ
  started : ℕ
  completed : ℕ

/-- Events of the pool state machine: a new submission (getFreeWorker) or
the completion of the in-flight request on slot i (the message handler
calling releaseWorker). -/
inductive PoolEvent where
  | submit
  | complete (i : ℕ)

/-- One step of the pool; the second component is the request dispatched by
this event, if any.  submit: getFreeWorker marks the first free slot busy
and dispatches at once, else appends the resolver to WORKER_QUEUE.
complete i: releaseWorker clears busy on slot i, then, if the queue is
nonempty, re-marks it busy and dispatches the dequeued head. -/
def poolStep (s : PoolState) : PoolEvent → PoolState × Option ℕ
  | .submit =>
    match firstFree s.pool with
    | some i =>
      ({ s with pool := s.pool.set i true, submitted := s.submitted + 1,
                started := s.started + 1 }, some s.submitted)
    | none =>
      ({ s with queue := s.queue ++ [s.submitted], submitted := s.submitted + 1 },
        none)
  | .complete i =>
    match s.queue with
    | [] => ({ s with pool := s.pool.set i false, completed := s.completed + 1 },
        none)
    | q :: rest =>
      ({ s with pool := (s.pool.set i false).set i true, queue := rest,
                completed := s.completed + 1, started := s.started + 1 }, some q)

/-- An event is valid when a completion names a busy slot. -/
def validEvent (s : PoolState) : PoolEvent → Bool
  | .submit => true
  | .complete i => s.pool.getD i false

/-- Run a trace, collecting the dispatched request ids in order. -/
def poolRun (s : PoolState) : List PoolEvent → PoolState × List ℕ
  | [] => (s, [])
  | e :: t =>
    let s2 := (poolStep s e).1
    let rest := poolRun s2 t
    (rest.1, (poolStep s e).2.toList ++ rest.2)

/-- Trace validity: every event is valid in the state it fires from. -/
def validTrace (s : PoolState) : List PoolEvent → Bool
  | [] => true
  | e :: t => validEvent s e && validTrace (poolStep s e).1 t

/-- The pool at startup: P idle workers, empty queue. -/
def initPool (P : ℕ) : PoolState := ⟨List.replicate P false, [], 0, 0, 0⟩

/-- Inductive invariant of the pool machine: the queue holds exactly the
submitted-but-not-started ids in submission order, counters are ordered,
the busy count equals the in-flight count, and a nonempty queue means the
pool is saturated. -/
def PoolInv (s : PoolState) : Prop :=
  s.queue = List.range' s.started (s.submitted - s.started) ∧
  s.started ≤ s.submitted ∧
  s.completed ≤ s.started ∧
  busyCount s.pool = s.started - s.completed ∧
  (s.queue ≠ [] → busyCount s.pool = s.pool.length)

/-- Trace for the C9 witness on a one-worker pool: two submissions then one
completion; the second request is queued and dispatched by the
completion. -/
def c9WitnessTrace : List PoolEvent :=
  [PoolEvent.submit, PoolEvent.submit, PoolEvent.complete 0]

end Spectro

namespace Spectro

theorem writeLoop_succ (n : ℕ) (off : ℕ → ℕ) (src : ℕ → ℕ → ℚ) (len : ℕ)
    (d0 : ℕ → ℚ) :
    writeLoop (n + 1) off src len d0 =
      writeChunk (writeLoop n off src len d0) (off n) (src n) len := by
  unfold writeLoop
  rw [List.range_succ, List.foldl_append]
  rfl

/-- Reading an address whose last covering chunk is chunk i returns that
contents of that chunk. -/
theorem writeLoop_get_last (off : ℕ → ℕ) (src : ℕ → ℕ → ℚ) (len : ℕ)
    (d0 : ℕ → ℚ) (a : ℕ) :
    ∀ n i, i < n → (off i ≤ a ∧ a < off i + len) →
    (∀ k, i < k → k < n → ¬(off k ≤ a ∧ a < off k + len)) →
    writeLoop n off src len d0 a = src i (a - off i) := by
  intro n
  induction n with
  | zero => intro i hi; omega
  | succ n ih =>
    intro i hi hcov hlater
    rw [writeLoop_succ]
    rcases Nat.lt_succ_iff_lt_or_eq.mp hi with hlt | rfl
    · have hnot : ¬(off n ≤ a ∧ a < off n + len) :=
        hlater n hlt (Nat.lt_succ_self n)
      unfold writeChunk
      simp only [hnot, if_false]
      exact ih i hlt hcov (fun k hk1 hk2 => hlater k hk1 (Nat.lt_succ_of_lt hk2))
    · unfold writeChunk
      rw [if_pos hcov]

/-- Reading an address covered by no chunk returns the original data. -/
theorem writeLoop_get_none (off : ℕ → ℕ) (src : ℕ → ℕ → ℚ) (len : ℕ)
    (d0 : ℕ → ℚ) (a : ℕ) :
    ∀ n, (∀ k, k < n → ¬(off k ≤ a ∧ a < off k + len)) →
    writeLoop n off src len d0 a = d0 a := by
  intro n
  induction n with
  | zero => intro _; rfl
  | succ n ih =>
    intro hnone
    rw [writeLoop_succ]
    have hnot : ¬(off n ≤ a ∧ a < off n + len) := hnone n (Nat.lt_succ_self n)
    unfold writeChunk
    simp only [hnot, if_false]
    exact ih (fun k hk => hnone k (Nat.lt_succ_of_lt hk))

/-- A height-h chunk at column x covers address xa * h + j (with j < h)
exactly when x = xa. -/
theorem chunk_cover_iff (h x xa j : ℕ) (hj : j < h) :
    (x * h ≤ xa * h + j ∧ xa * h + j < x * h + h) ↔ x = xa := by
  constructor
  · rintro ⟨h1, h2⟩
    have hxa_le : x ≤ xa := by
      have : x * h < (xa + 1) * h := by
        calc x * h ≤ xa * h + j := h1
        _ < xa * h + h := by omega
        _ = (xa + 1) * h := by ring
      exact Nat.lt_succ_iff.mp (Nat.lt_of_mul_lt_mul_right this)
    have hle_x : xa ≤ x := by
      have : xa * h < (x + 1) * h := by
        calc xa * h ≤ xa * h + j := Nat.le_add_right _ _
        _ < x * h + h := h2
        _ = (x + 1) * h := by ring
      exact Nat.lt_succ_iff.mp (Nat.lt_of_mul_lt_mul_right this)
    omega
  · rintro rfl
    exact ⟨Nat.le_add_right _ _, by omega⟩

/-- C10: calling resizeWidth with the current width of the buffer is a complete
no-op: the early return leaves data, start and length unchanged (in
particular start is not reset to 0). -/
theorem resizeWidth_same_width_noop (b : Circular2DBuffer) :
    resizeWidth b b.width = b := by
  unfold resizeWidth
  rw [if_pos rfl]

/-- The enqueue copy loop puts column i at physical column
(start + length + i) mod width whenever no later column lands on the same
physical column. -/
theorem enqueue_data_written (b : Circular2DBuffer) (input : ℕ → ℚ) (dw : ℕ)
    (i : ℕ) (hik : i < dw)
    (hnolater : ∀ i2, i2 < dw → i < i2 →
      (b.start + b.length + i2) % b.width ≠ (b.start + b.length + i) % b.width)
    (j : ℕ) (hj : j < b.height) :
    writeLoop dw (fun i2 => ((b.start + b.length + i2) % b.width) * b.height)
      (fun i2 j2 => input (i2 * b.height + j2)) b.height b.data
      (((b.start + b.length + i) % b.width) * b.height + j) =
    input (i * b.height + j) := by
  have hcov : ((b.start + b.length + i) % b.width) * b.height ≤
      ((b.start + b.length + i) % b.width) * b.height + j ∧
      ((b.start + b.length + i) % b.width) * b.height + j <
      ((b.start + b.length + i) % b.width) * b.height + b.height :=
    ⟨Nat.le_add_right _ _, by omega⟩
  have hlast := writeLoop_get_last
    (fun i2 => ((b.start + b.length + i2) % b.width) * b.height)
    (fun i2 j2 => input (i2 * b.height + j2)) b.height b.data
    (((b.start + b.length + i) % b.width) * b.height + j) dw i hik hcov
    (fun k2 h1 h2 hcov2 =>
      hnolater k2 h2 h1 ((chunk_cover_iff b.height _ _ j hj).mp hcov2))
  rw [hlast]
  simp

/-- The enqueue copy loop leaves physical columns untouched when no input
column lands on them. -/
theorem enqueue_data_untouched (b : Circular2DBuffer) (input : ℕ → ℚ) (dw : ℕ)
    (x : ℕ) (hx : ∀ i, i < dw → (b.start + b.length + i) % b.width ≠ x)
    (j : ℕ) (hj : j < b.height) :
    writeLoop dw (fun i2 => ((b.start + b.length + i2) % b.width) * b.height)
      (fun i2 j2 => input (i2 * b.height + j2)) b.height b.data
      (x * b.height + j) =
    b.data (x * b.height + j) :=
  writeLoop_get_none _ _ _ _ _ dw
    (fun i hik hcov => hx i hik ((chunk_cover_iff b.height _ _ j hj).mp hcov))

/-- C2: enqueueing k columns writes them at physical columns
(start + length + i) mod width (later columns win when positions collide),
leaves every other column untouched, and on overflow saturates length to
width while advancing start by (oldLength + k - width) mod width;
otherwise start is unchanged and length grows by k.  Stated for the layout
the application uses (elementSize = 1) on a nonempty buffer shape. -/
theorem enqueue_spec (b : Circular2DBuffer) (input : ℕ → ℚ) (k : ℕ)
    (he : b.elementSize = 1) (hh : 0 < b.height) (_hw : 0 < b.width) :
    (∀ i, i < k →
      (∀ i2, i2 < k → i < i2 →
        (b.start + b.length + i2) % b.width ≠ (b.start + b.length + i) % b.width) →
      ∀ j, j < b.height →
        (enqueue b input (k * b.height)).data
            (((b.start + b.length + i) % b.width) * b.height + j) =
          input (i * b.height + j)) ∧
    (∀ x, (∀ i, i < k → (b.start + b.length + i) % b.width ≠ x) →
      ∀ j, j < b.height →
        (enqueue b input (k * b.height)).data (x * b.height + j) =
          b.data (x * b.height + j)) ∧
    (b.width < b.length + k →
      (enqueue b input (k * b.height)).length = b.width ∧
      (enqueue b input (k * b.height)).start =
        (b.start + (b.length + k - b.width)) % b.width) ∧
    (b.length + k ≤ b.width →
      (enqueue b input (k * b.height)).start = b.start ∧
      (enqueue b input (k * b.height)).length = b.length + k) := by
  have hdw : k * b.height / (b.elementSize * b.height) = k := by
    rw [he, one_mul]
    exact Nat.mul_div_cancel k hh
  unfold enqueue
  simp only [hdw]
  by_cases hbw : b.width < b.length + k
  · rw [if_pos hbw]
    refine ⟨?_, ?_, ?_, ?_⟩
    · intro i hik hnolater j hj
      exact enqueue_data_written b input k i hik hnolater j hj
    · intro x hx j hj
      exact enqueue_data_untouched b input k x hx j hj
    · intro _
      refine ⟨rfl, ?_⟩
      show (b.start + (b.length + k) - b.width) % b.width = _
      congr 1
      omega
    · intro hle
      omega
  · rw [if_neg hbw]
    refine ⟨?_, ?_, ?_, ?_⟩
    · intro i hik hnolater j hj
      exact enqueue_data_written b input k i hik hnolater j hj
    · intro x hx j hj
      exact enqueue_data_untouched b input k x hx j hj
    · intro hlt
      omega
    · intro _
      exact ⟨rfl, rfl⟩

/-- Witness for enqueue_spec: a width-3, height-2 buffer holding two
columns receives two more; it overflows by one, so start advances to 1 and
length saturates at 3. -/
theorem enqueue_spec_witness :
    (enqueueWitnessBuf.elementSize = 1 ∧ 0 < enqueueWitnessBuf.height ∧
      0 < enqueueWitnessBuf.width) ∧
    (enqueue enqueueWitnessBuf enqueueWitnessInput (2 * 2)).data
        (((0 + 2 + 0) % 3) * 2 + 1) = enqueueWitnessInput 1 ∧
    (enqueue enqueueWitnessBuf enqueueWitnessInput (2 * 2)).length = 3 ∧
    (enqueue enqueueWitnessBuf enqueueWitnessInput (2 * 2)).start =
      (0 + (2 + 2 - 3)) % 3 := by
  have h := enqueue_spec enqueueWitnessBuf enqueueWitnessInput 2 rfl
    (by decide) (by decide)
  refine ⟨⟨rfl, by decide, by decide⟩, ?_, ?_, ?_⟩
  · exact h.1 0 (by decide) (by decide) 1 (by decide)
  · exact (h.2.2.1 (by decide)).1
  · exact (h.2.2.1 (by decide)).2

/-- C3 counterexample: resizing a width-2 buffer whose start is 1 to the
same width 2 takes the early-return path, so start stays 1 instead of
being reset to 0 as the claim requires for every newWidth. -/
theorem resizeWidth_same_width_keeps_start :
    ¬ (resizeWidth resizeNoopCex 2).start = 0 := by decide

/-- C3 amended: for newWidth different from the current width, resizeWidth
keeps the min(oldLength, newWidth) most recent columns in chronological
order with the newest at the tail, resets start to 0 and sets length to
min(oldLength, newWidth); with newWidth equal to the current width the
call is a no-op that preserves start (see C10). -/
theorem resizeWidth_spec (b : Circular2DBuffer) (w : ℕ)
    (hne : w ≠ b.width) (_hh : 0 < b.height) :
    (resizeWidth b w).start = 0 ∧
    (resizeWidth b w).width = w ∧
    (resizeWidth b w).length = min b.length w ∧
    ∀ p, p < min b.length w → ∀ j, j < b.height →
      getColumn (resizeWidth b w) p j =
        getColumn b (b.length - min b.length w + p) j := by
  unfold resizeWidth
  rw [if_neg hne]
  refine ⟨rfl, rfl, rfl, ?_⟩
  intro p hp j hj
  have hml : min b.length w ≤ b.length := min_le_left _ _
  have hpw : p < w := lt_of_lt_of_le hp (min_le_right _ _)
  unfold getColumn
  dsimp only
  rw [Nat.zero_add, Nat.mod_eq_of_lt hpw]
  have hik : min b.length w - p - 1 < min b.length w := by omega
  have hidx : min b.length w - (min b.length w - p - 1) - 1 = p := by omega
  have hcov : (min b.length w - (min b.length w - p - 1) - 1) * b.height ≤
      p * b.height + j ∧
      p * b.height + j <
      (min b.length w - (min b.length w - p - 1) - 1) * b.height + b.height := by
    rw [hidx]
    exact ⟨Nat.le_add_right _ _, by omega⟩
  have hlast := writeLoop_get_last
    (fun i => (min b.length w - i - 1) * b.height)
    (fun i j2 => b.data
      (((b.start + b.length - i - 1) % b.width) * b.height + j2))
    b.height (fun _ => 0) (p * b.height + j)
    (min b.length w) (min b.length w - p - 1) hik hcov
    (fun k2 h1 h2 hcov2 => by
      have hk2 : min b.length w - k2 - 1 = p :=
        (chunk_cover_iff b.height _ _ j hj).mp hcov2
      omega)
  rw [hlast]
  dsimp only
  rw [hidx, Nat.add_sub_cancel_left]
  have harith : b.start + b.length - (min b.length w - p - 1) - 1 =
      b.start + (b.length - min b.length w + p) := by omega
  rw [harith]

/-- Witness for resizeWidth_spec: a width-3 buffer holding columns
10, 20, 30 chronologically is resized to width 2 and keeps 20, 30. -/
theorem resizeWidth_spec_witness :
    ((2 : ℕ) ≠ resizeWitnessBuf.width ∧ 0 < resizeWitnessBuf.height) ∧
    (resizeWidth resizeWitnessBuf 2).start = 0 ∧
    (resizeWidth resizeWitnessBuf 2).length = min resizeWitnessBuf.length 2 ∧
    getColumn (resizeWidth resizeWitnessBuf 2) 0 0 =
      getColumn resizeWitnessBuf
        (resizeWitnessBuf.length - min resizeWitnessBuf.length 2 + 0) 0 := by
  have h := resizeWidth_spec resizeWitnessBuf 2 (by decide) (by decide)
  exact ⟨⟨by decide, by decide⟩, h.1, h.2.2.1, h.2.2.2 0 (by decide) 0 (by decide)⟩

/-- Every single operation with a positive resize target preserves the
buffer invariant. -/
theorem bufInv_applyOp (b : Circular2DBuffer) (op : BufOp)
    (hb : BufInv b) (hop : opWidthPositive op = true) :
    BufInv (applyOp b op) := by
  have hw : 0 < b.width := lt_of_le_of_lt (Nat.zero_le _) hb.1
  cases op with
  | enq input inputLen =>
    show BufInv (enqueue b input inputLen)
    unfold enqueue
    by_cases hc : b.width < b.length + inputLen / (b.elementSize * b.height)
    · rw [if_pos hc]
      exact ⟨Nat.mod_lt _ hw, le_refl _⟩
    · rw [if_neg hc]
      refine ⟨hb.1, ?_⟩
      show b.length + inputLen / (b.elementSize * b.height) ≤ b.width
      omega
  | resize w =>
    show BufInv (resizeWidth b w)
    have hwpos : 0 < w := by
      have h2 := hop
      simp only [opWidthPositive, decide_eq_true_eq] at h2
      exact h2
    unfold resizeWidth
    by_cases hweq : w = b.width
    · rw [if_pos hweq]
      exact hb
    · rw [if_neg hweq]
      exact ⟨hwpos, min_le_right _ _⟩
  | clr =>
    exact ⟨hw, Nat.zero_le _⟩

/-- Invariant preservation extended along a list of operations. -/
theorem bufInv_applyOps : ∀ (ops : List BufOp) (b : Circular2DBuffer),
    BufInv b → (∀ op ∈ ops, opWidthPositive op = true) →
    BufInv (applyOps b ops) := by
  intro ops
  induction ops with
  | nil => intro b hb _; exact hb
  | cons op rest ih =>
    intro b hb hops
    exact ih (applyOp b op)
      (bufInv_applyOp b op hb (hops op (List.mem_cons_self _ _)))
      (fun op2 h2 => hops op2 (List.mem_cons_of_mem _ h2))

/-- C6 counterexample: resizeWidth(0) on a freshly constructed width-1
buffer yields width = start = 0, so the invariant 0 ≤ start < width fails
on a reachable state. -/
theorem resize_zero_breaks_inv :
    ¬ BufInv (applyOps (mkBuffer 1 1 1) [BufOp.resize 0]) := by decide

/-- C6 amended: every state reachable from a freshly constructed buffer of
positive width through enqueue, clear and resizeWidth with positive
targets satisfies 0 ≤ start < width and 0 ≤ length ≤ width; a zero
constructed width or resizeWidth(0) forces width = start = 0, where
start < width cannot hold. -/
theorem reachable_buffer_inv (w h e : ℕ) (hw : 0 < w) (ops : List BufOp)
    (hops : ∀ op ∈ ops, opWidthPositive op = true) :
    BufInv (applyOps (mkBuffer w h e) ops) :=
  bufInv_applyOps ops (mkBuffer w h e) ⟨hw, Nat.zero_le _⟩ hops

/-- Witness for reachable_buffer_inv: an enqueue, a resize to 2 and a clear
on a fresh width-2 buffer. -/
theorem reachable_buffer_inv_witness :
    ((0 : ℕ) < 2 ∧ ∀ op ∈ c6WitnessOps, opWidthPositive op = true) ∧
    BufInv (applyOps (mkBuffer 2 1 1) c6WitnessOps) := by
  refine ⟨⟨by decide, by decide⟩, ?_⟩
  exact reachable_buffer_inv 2 1 1 (by decide) c6WitnessOps (by decide)

/-- C4: the partial-update paths of updateSpectrogram do not always
reproduce a full upload.  In the trace c4Buf1 → c4Buf2 the second enqueue
takes the buffer from not-full (start 0, length 2) past capacity
(start 1, length 3) and writes physical columns 2 and 0, but the no-wrap
diff path uploads only rows [lastStart, start) = [0, 1): texel 2 keeps its
stale value 0 while the buffer (and a forced full upload) holds 3 there. -/
theorem updateSpectrogram_partial_misses_overflow_rows :
    c4Buf2.start = 1 ∧ c4Buf2.length = 3 ∧ c4Buf2.data 2 = 3 ∧
    c4State2.texture 2 = 0 ∧
    (updateSpectrogram c4State1 c4Buf2 true).texture 2 = 3 := by decide

/-- C7: updateParameters merges each field from the partial patch when
present, else from the previous snapshot when one exists, else from the
hard defaults contrast 25, sensitivity 25, zoom 4, minFrequencyHz 10,
maxFrequencyHz 12000, sampleRate 48000, windowSize 4096, scale mel,
gradient HEATED_METAL_GRADIENT. -/
theorem updateParameters_merge_fallback (p : RenderParametersPatch)
    (old : Option RenderParameters) :
    updateParametersMerge p old =
      { contrast := p.contrast.getD ((old.map RenderParameters.contrast).getD 25),
        sensitivity :=
          p.sensitivity.getD ((old.map RenderParameters.sensitivity).getD 25),
        zoom := p.zoom.getD ((old.map RenderParameters.zoom).getD 4),
        minFrequencyHz :=
          p.minFrequencyHz.getD ((old.map RenderParameters.minFrequencyHz).getD 10),
        maxFrequencyHz :=
          p.maxFrequencyHz.getD ((old.map RenderParameters.maxFrequencyHz).getD 12000),
        sampleRate := p.sampleRate.getD ((old.map RenderParameters.sampleRate).getD 48000),
        windowSize := p.windowSize.getD ((old.map RenderParameters.windowSize).getD 4096),
        scale := p.scale.getD ((old.map RenderParameters.scale).getD "mel"),
        gradient :=
          p.gradient.getD ((old.map RenderParameters.gradient).getD HEATED_METAL_GRADIENT) } := by
  have hm : ∀ {α : Type} (n o : Option α) (d : α), merge n o d = n.getD (o.getD d) := by
    intro α n o d
    cases n <;> cases o <;> rfl
  simp only [updateParametersMerge, hm]

/-- stepTowards is the identity once current equals target. -/
theorem stepTowards_self (x amount : ℚ) : stepTowards x x amount = x := by
  unfold stepTowards
  rw [sub_self, abs_zero, if_pos (by norm_num)]

/-- C8 counterexample: with current contrast equal to its target 1/25
(which lies in (0, 0.05)), a render step forces the contrast to 0, so the
smoothed contrast is not idempotent at rest. -/
theorem renderSmoothStep_contrast_not_idempotent :
    c8CexState.contrast = c8CexTargets.contrast ∧
    (renderSmoothStep c8CexState c8CexTargets).contrast ≠ c8CexState.contrast := by
  have h1 : (renderSmoothStep c8CexState c8CexTargets).contrast = 0 := by
    show (if stepTowards ((1:ℚ)/25) (1/25) (1/2) < 1/20 then (0:ℚ)
      else stepTowards ((1:ℚ)/25) (1/25) (1/2)) = 0
    rw [stepTowards_self, if_pos (by norm_num)]
  refine ⟨rfl, ?_⟩
  rw [h1]
  show (0 : ℚ) ≠ 1/25
  norm_num

/-- C8 amended: each render step moves every smoothed parameter to
lerp(current, target, 0.5), snapping exactly to the target when within
1e-9, and then forces contrast to exactly 0 whenever the stepped value is
below 0.05; at rest the scale-range components, sensitivity and zoom are
unchanged, and contrast is unchanged provided its target is 0 or at least
0.05 (for targets strictly between 0 and 0.05 the forcing overrides
idempotence, as the counterexample shows). -/
theorem renderSmoothStep_spec (s : SmoothState) (t : SmoothTargets) :
    ((renderSmoothStep s t).scaleRange0 =
      if |s.scaleRange0 - t.scaleRange0| < 1 / 1000000000 then t.scaleRange0
      else lerp s.scaleRange0 t.scaleRange0 (1/2)) ∧
    ((renderSmoothStep s t).scaleRange1 =
      if |s.scaleRange1 - t.scaleRange1| < 1 / 1000000000 then t.scaleRange1
      else lerp s.scaleRange1 t.scaleRange1 (1/2)) ∧
    ((renderSmoothStep s t).sensitivity =
      if |s.sensitivity - t.sensitivity| < 1 / 1000000000 then t.sensitivity
      else lerp s.sensitivity t.sensitivity (1/2)) ∧
    ((renderSmoothStep s t).zoom =
      if |s.zoom - t.zoom| < 1 / 1000000000 then t.zoom
      else lerp s.zoom t.zoom (1/2)) ∧
    ((renderSmoothStep s t).contrast =
      if stepTowards s.contrast t.contrast (1/2) < 1/20 then 0
      else stepTowards s.contrast t.contrast (1/2)) ∧
    (s.scaleRange0 = t.scaleRange0 →
      (renderSmoothStep s t).scaleRange0 = s.scaleRange0) ∧
    (s.scaleRange1 = t.scaleRange1 →
      (renderSmoothStep s t).scaleRange1 = s.scaleRange1) ∧
    (s.sensitivity = t.sensitivity →
      (renderSmoothStep s t).sensitivity = s.sensitivity) ∧
    (s.zoom = t.zoom → (renderSmoothStep s t).zoom = s.zoom) ∧
    (s.contrast = t.contrast → t.contrast = 0 ∨ 1/20 ≤ t.contrast →
      (renderSmoothStep s t).contrast = s.contrast) := by
  refine ⟨rfl, rfl, rfl, rfl, rfl, ?_, ?_, ?_, ?_, ?_⟩
  · intro h
    show stepTowards s.scaleRange0 t.scaleRange0 (1/2) = s.scaleRange0
    rw [h, stepTowards_self]
  · intro h
    show stepTowards s.scaleRange1 t.scaleRange1 (1/2) = s.scaleRange1
    rw [h, stepTowards_self]
  · intro h
    show stepTowards s.sensitivity t.sensitivity (1/2) = s.sensitivity
    rw [h, stepTowards_self]
  · intro h
    show stepTowards s.zoom t.zoom (1/2) = s.zoom
    rw [h, stepTowards_self]
  · intro h hcase
    show (if stepTowards s.contrast t.contrast (1/2) < 1/20 then 0
      else stepTowards s.contrast t.contrast (1/2)) = s.contrast
    rw [h, stepTowards_self]
    rcases hcase with h0 | hge
    · rw [h0, if_pos (by norm_num)]
    · rw [if_neg (not_lt.mpr hge)]

/-- Witness for renderSmoothStep_spec: a state at rest with contrast 25. -/
theorem renderSmoothStep_spec_witness :
    (c8WitnessState.contrast = c8WitnessTargets.contrast ∧
      (1 : ℚ)/20 ≤ c8WitnessTargets.contrast ∧
      c8WitnessState.zoom = c8WitnessTargets.zoom) ∧
    (renderSmoothStep c8WitnessState c8WitnessTargets).zoom =
      c8WitnessState.zoom ∧
    (renderSmoothStep c8WitnessState c8WitnessTargets).contrast =
      c8WitnessState.contrast := by
  have h := renderSmoothStep_spec c8WitnessState c8WitnessTargets
  have hge : (1 : ℚ)/20 ≤ c8WitnessTargets.contrast := by
    show (1 : ℚ)/20 ≤ 25
    norm_num
  refine ⟨⟨rfl, hge, rfl⟩, ?_, ?_⟩
  · exact h.2.2.2.2.2.2.2.2.1 rfl
  · exact h.2.2.2.2.2.2.2.2.2 rfl (Or.inr hge)

/-- Math.ceil(l / s) over the rationals agrees with the Nat formula
(l + s - 1) / s. -/
theorem ceilDivNat_cast_eq_ceil (l s : ℕ) (hs : 0 < s) :
    ((ceilDivNat l s : ℕ) : ℤ) = ⌈(l : ℚ) / (s : ℚ)⌉ := by
  rcases Nat.eq_zero_or_pos l with rfl | hl
  · have h0 : ceilDivNat 0 s = 0 := by
      unfold ceilDivNat
      rw [Nat.zero_add]
      exact Nat.div_eq_of_lt (by omega)
    rw [h0]
    simp
  · have hs0 : (0 : ℚ) < (s : ℚ) := by exact_mod_cast hs
    have key : s * ceilDivNat l s + (l + s - 1) % s = l + s - 1 :=
      Nat.div_add_mod (l + s - 1) s
    have hr : (l + s - 1) % s < s := Nat.mod_lt _ hs
    have h1 : l ≤ s * ceilDivNat l s := by omega
    have h2 : s * ceilDivNat l s < l + s := by omega
    symm
    rw [Int.ceil_eq_iff]
    constructor
    · rw [lt_div_iff₀ hs0]
      have h2q : (s : ℚ) * (ceilDivNat l s : ℚ) < (l : ℚ) + (s : ℚ) := by
        exact_mod_cast h2
      push_cast
      nlinarith
    · rw [div_le_iff₀ hs0]
      have h1q : (l : ℚ) ≤ (s : ℚ) * (ceilDivNat l s : ℚ) := by
        exact_mod_cast h1
      push_cast
      nlinarith

/-- Math.floor(w / s) over the rationals is exact Nat division when s
divides w. -/
theorem floor_cast_div_of_dvd (w s : ℕ) (hs : 0 < s) (hdvd : s ∣ w) :
    ⌊(w : ℚ) / (s : ℚ)⌋ = ((w / s : ℕ) : ℤ) := by
  obtain ⟨t, rfl⟩ := hdvd
  have hs0 : (s : ℚ) ≠ 0 := Nat.cast_ne_zero.mpr hs.ne'
  rw [Nat.mul_div_cancel_left t hs]
  have hq : ((s * t : ℕ) : ℚ) / (s : ℚ) = (t : ℚ) := by
    push_cast
    field_simp
  rw [hq, Int.floor_natCast]

/-- The sample fed to a window is zero outside the valid range. -/
theorem windowSample_out_of_range (samples : ℤ → ℚ) (sStart sLen : ℕ)
    (idx : ℤ) (h : idx < (sStart : ℤ) ∨ (sStart : ℤ) + (sLen : ℤ) ≤ idx) :
    windowSample samples sStart sLen idx = 0 := by
  unfold windowSample
  rw [if_pos h]

/-- C1: whenever generateSpectrogram returns (windowStepSize positive and
dividing windowSize), the returned windowCount is
ceil(samplesLength/step) - floor(windowSize/step) + 1 plus
floor(windowSize/step) - 1 extra windows for each of isStart and isEnd;
isStart also moves the first window back by that many steps; and every
sample index outside [samplesStart, samplesStart + samplesLength) is fed
to the FFT as zero. -/
theorem generateSpectrogram_windowCount_spec (samples : ℤ → ℚ)
    (sStart sLen : ℕ) (o : SpectrogramOptions) (r : SpectrogramResult)
    (hs : 0 < o.windowStepSize) (hdvd : o.windowStepSize ∣ o.windowSize)
    (hok : generateSpectrogram samples sStart sLen o = .ok r) :
    r.windowCount =
      ⌈(sLen : ℚ) / (o.windowStepSize : ℚ)⌉
        - ⌊(o.windowSize : ℚ) / (o.windowStepSize : ℚ)⌋ + 1
        + (if o.isStart then ⌊(o.windowSize : ℚ) / (o.windowStepSize : ℚ)⌋ - 1 else 0)
        + (if o.isEnd then ⌊(o.windowSize : ℚ) / (o.windowStepSize : ℚ)⌋ - 1 else 0) ∧
    r.startIdx = (sStart : ℤ) -
      (if o.isStart then
        (⌊(o.windowSize : ℚ) / (o.windowStepSize : ℚ)⌋ - 1) * (o.windowStepSize : ℤ)
      else 0) ∧
    ∀ m j : ℕ,
      (r.startIdx + (m : ℤ) * (o.windowStepSize : ℤ) + (j : ℤ) < (sStart : ℤ) ∨
        (sStart : ℤ) + (sLen : ℤ) ≤
          r.startIdx + (m : ℤ) * (o.windowStepSize : ℤ) + (j : ℤ)) →
      r.windowAt m j = 0 := by
  have hfloor : ⌊(o.windowSize : ℚ) / (o.windowStepSize : ℚ)⌋ =
      ((o.windowSize / o.windowStepSize : ℕ) : ℤ) :=
    floor_cast_div_of_dvd _ _ hs hdvd
  have hceil : ((ceilDivNat sLen o.windowStepSize : ℕ) : ℤ) =
      ⌈(sLen : ℚ) / (o.windowStepSize : ℚ)⌉ :=
    ceilDivNat_cast_eq_ceil _ _ hs
  have hmod : o.windowSize % o.windowStepSize = 0 :=
    Nat.dvd_iff_mod_eq_zero.mp hdvd
  unfold generateSpectrogram at hok
  rw [if_neg (by push_neg; exact ⟨hs.ne', hmod⟩)] at hok
  by_cases h2 : numWindowsOf sLen o * (resolvedScaleSize o : ℤ) < 0
  · rw [if_pos h2] at hok
    exact Except.noConfusion hok
  · rw [if_neg h2] at hok
    by_cases h3 : 0 < numWindowsOf sLen o ∧ 0 < resolvedScaleSize o ∧
        ¬(o.scale = "linear" ∨ o.scale = "mel")
    · rw [if_pos h3] at hok
      exact Except.noConfusion hok
    · rw [if_neg h3] at hok
      injection hok with hr
      subst hr
      refine ⟨?_, ?_, ?_⟩
      · show numWindowsOf sLen o = _
        rw [← hceil, hfloor]
        unfold numWindowsOf additionalWindows
        rfl
      · show startIdxOf sStart o = _
        rw [hfloor]
        unfold startIdxOf additionalWindows
        rfl
      · intro m j hc
        exact windowSample_out_of_range samples sStart sLen _ hc

/-- Witness for generateSpectrogram_windowCount_spec: four samples, window
size 4, step 2, isStart set, so 1 + (2 - 1) = 2 windows starting at
index -2, and sample index 7 (window 0, offset 9) reads zero. -/
theorem generateSpectrogram_windowCount_witness :
    (0 < c1Opts.windowStepSize ∧ c1Opts.windowStepSize ∣ c1Opts.windowSize) ∧
    c1Result.windowCount = 2 ∧ c1Result.startIdx = -2 ∧
    c1Result.windowAt 0 9 = 0 := by
  have hok : generateSpectrogram c1Samples 0 4 c1Opts = .ok c1Result := rfl
  have h := generateSpectrogram_windowCount_spec c1Samples 0 4 c1Opts c1Result
    (by decide) (by decide) hok
  refine ⟨⟨by decide, by decide⟩, ?_, ?_, ?_⟩
  · rw [h.1]
    norm_num [c1Opts]
  · rw [h.2.1]
    norm_num [c1Opts]
  · refine h.2.2 0 9 ?_
    rw [h.2.1]
    norm_num [c1Opts]

/-- C5 counterexample: with an unrecognized scale but a window count of
zero (samplesLength 0, windowSize = windowStepSize = 1024) the per-window
loop never runs, so generateSpectrogram returns successfully instead of
failing as the claim requires. -/
theorem generateSpectrogram_unknown_scale_can_succeed :
    ¬(c5Opts.scale = "linear" ∨ c5Opts.scale = "mel") ∧
    c5Opts.windowStepSize ∣ c5Opts.windowSize ∧
    exceptIsOk (generateSpectrogram (fun _ => 0) 0 0 c5Opts) = true := by
  exact ⟨by decide, dvd_refl 1024, by decide⟩

/-- C5 amended: for positive windowStepSize, positive resolved scaleSize
and a nonnegative computed window count, generateSpectrogram fails
synchronously exactly when windowStepSize does not divide windowSize, or
when the scale is neither linear nor mel and at least one window is
computed; with zero windows an unrecognized scale is returned without
error. -/
theorem generateSpectrogram_error_iff (samples : ℤ → ℚ) (sStart sLen : ℕ)
    (o : SpectrogramOptions) (hs : 0 < o.windowStepSize)
    (hss : 0 < resolvedScaleSize o) (hnn : 0 ≤ numWindowsOf sLen o) :
    exceptIsOk (generateSpectrogram samples sStart sLen o) = false ↔
      (¬ o.windowStepSize ∣ o.windowSize ∨
        (¬(o.scale = "linear" ∨ o.scale = "mel") ∧
          1 ≤ numWindowsOf sLen o)) := by
  unfold generateSpectrogram
  by_cases hdvd : o.windowStepSize ∣ o.windowSize
  · have hmod : o.windowSize % o.windowStepSize = 0 :=
      Nat.dvd_iff_mod_eq_zero.mp hdvd
    rw [if_neg (by push_neg; exact ⟨hs.ne', hmod⟩)]
    have hprod : ¬ numWindowsOf sLen o * (resolvedScaleSize o : ℤ) < 0 := by
      push_neg
      exact mul_nonneg hnn (Int.natCast_nonneg _)
    rw [if_neg hprod]
    by_cases hbad : 0 < numWindowsOf sLen o ∧ 0 < resolvedScaleSize o ∧
        ¬(o.scale = "linear" ∨ o.scale = "mel")
    · rw [if_pos hbad]
      dsimp only [exceptIsOk]
      constructor
      · intro _
        exact Or.inr ⟨hbad.2.2, hbad.1⟩
      · intro _
        rfl
    · rw [if_neg hbad]
      dsimp only [exceptIsOk]
      constructor
      · intro h
        exact Bool.noConfusion h
      · intro hr
        rcases hr with hnd | ⟨hb, hn1⟩
        · exact absurd hdvd hnd
        · exact absurd ⟨by omega, hss, hb⟩ hbad
  · have hmodne : o.windowSize % o.windowStepSize ≠ 0 := fun h =>
      hdvd (Nat.dvd_iff_mod_eq_zero.mpr h)
    rw [if_pos (Or.inr hmodne)]
    dsimp only [exceptIsOk]
    constructor
    · intro _
      exact Or.inl hdvd
    · intro _
      rfl

/-- Witness for generateSpectrogram_error_iff: the c5Opts configuration
with 1024 samples computes one window, so the unknown scale does fail. -/
theorem generateSpectrogram_error_iff_witness :
    (0 < c5Opts.windowStepSize ∧ 0 < resolvedScaleSize c5Opts ∧
      0 ≤ numWindowsOf 1024 c5Opts) ∧
    (exceptIsOk (generateSpectrogram (fun _ => 0) 0 1024 c5Opts) = false ↔
      (¬ c5Opts.windowStepSize ∣ c5Opts.windowSize ∨
        (¬(c5Opts.scale = "linear" ∨ c5Opts.scale = "mel") ∧
          1 ≤ numWindowsOf 1024 c5Opts))) :=
  ⟨⟨by decide, by decide, by decide⟩,
    generateSpectrogram_error_iff (fun _ => 0) 0 1024 c5Opts
      (by decide) (by decide) (by decide)⟩

theorem busyCount_cons (b : Bool) (l : List Bool) :
    busyCount (b :: l) = busyCount l + (if b then 1 else 0) := by
  unfold busyCount
  rw [List.count_cons]
  cases b <;> simp

theorem getD_true_lt_length : ∀ (l : List Bool) (i : ℕ),
    l.getD i false = true → i < l.length := by
  intro l
  induction l with
  | nil =>
    intro i h
    simp at h
  | cons b rest ih =>
    intro i h
    cases i with
    | zero => simp
    | succ n =>
      simp only [List.getD_cons_succ] at h
      have := ih n h
      simp only [List.length_cons]
      omega

theorem set_true_getD_true : ∀ (l : List Bool) (i : ℕ),
    l.getD i false = true → l.set i true = l := by
  intro l
  induction l with
  | nil =>
    intro i _
    rfl
  | cons b rest ih =>
    intro i h
    cases i with
    | zero =>
      simp only [List.getD_cons_zero] at h
      subst h
      rfl
    | succ n =>
      simp only [List.getD_cons_succ] at h
      show b :: rest.set n true = b :: rest
      rw [ih n h]

theorem busyCount_set_true : ∀ (l : List Bool) (i : ℕ), i < l.length →
    l.getD i false = false → busyCount (l.set i true) = busyCount l + 1 := by
  intro l
  induction l with
  | nil =>
    intro i h _
    simp at h
  | cons b rest ih =>
    intro i hlt h
    cases i with
    | zero =>
      simp only [List.getD_cons_zero] at h
      subst h
      show busyCount (true :: rest) = busyCount (false :: rest) + 1
      rw [busyCount_cons, busyCount_cons]
      simp
    | succ n =>
      simp only [List.getD_cons_succ] at h
      simp only [List.length_cons] at hlt
      show busyCount (b :: rest.set n true) = busyCount (b :: rest) + 1
      rw [busyCount_cons, busyCount_cons, ih n (by omega) h]
      omega

theorem busyCount_set_false : ∀ (l : List Bool) (i : ℕ),
    l.getD i false = true → busyCount (l.set i false) + 1 = busyCount l := by
  intro l
  induction l with
  | nil =>
    intro i h
    simp at h
  | cons b rest ih =>
    intro i h
    cases i with
    | zero =>
      simp only [List.getD_cons_zero] at h
      subst h
      show busyCount (false :: rest) + 1 = busyCount (true :: rest)
      rw [busyCount_cons, busyCount_cons]
      simp
    | succ n =>
      simp only [List.getD_cons_succ] at h
      show busyCount (b :: rest.set n false) + 1 = busyCount (b :: rest)
      rw [busyCount_cons, busyCount_cons]
      have := ih n h
      omega

theorem firstFree_none_busyCount : ∀ (l : List Bool),
    firstFree l = none → busyCount l = l.length := by
  intro l
  induction l with
  | nil =>
    intro _
    rfl
  | cons b rest ih =>
    intro h
    cases b with
    | false => simp [firstFree] at h
    | true =>
      have h2 : firstFree rest = none := by
        simp [firstFree, Option.map_eq_none'] at h
        exact h
      rw [busyCount_cons, ih h2, List.length_cons]
      simp

theorem firstFree_eq_none_of_full : ∀ (l : List Bool),
    busyCount l = l.length → firstFree l = none := by
  intro l
  induction l with
  | nil =>
    intro _
    rfl
  | cons b rest ih =>
    intro h
    rw [busyCount_cons, List.length_cons] at h
    cases b with
    | false =>
      exfalso
      have hb : busyCount rest ≤ rest.length := List.count_le_length _ _
      simp at h
      omega
    | true =>
      simp at h
      simp [firstFree, ih h]

theorem firstFree_some_spec : ∀ (l : List Bool) (i : ℕ), firstFree l = some i →
    i < l.length ∧ l.getD i false = false := by
  intro l
  induction l with
  | nil =>
    intro i h
    simp [firstFree] at h
  | cons b rest ih =>
    intro i h
    cases b with
    | false =>
      simp [firstFree] at h
      subst h
      exact ⟨by simp, rfl⟩
    | true =>
      simp only [firstFree, if_true, Option.map_eq_some'] at h
      obtain ⟨i2, h2, hi⟩ := h
      obtain ⟨hlt, hfalse⟩ := ih i2 h2
      subst hi
      refine ⟨?_, ?_⟩
      · simp only [List.length_cons]
        omega
      · simpa using hfalse

theorem busyCount_lt_of_firstFree_some (l : List Bool) (i : ℕ)
    (h : firstFree l = some i) : busyCount l < l.length := by
  obtain ⟨hlt, hfalse⟩ := firstFree_some_spec l i h
  have h2 := busyCount_set_true l i hlt hfalse
  have h3 : busyCount (l.set i true) ≤ (l.set i true).length :=
    List.count_le_length _ _
  rw [List.length_set] at h3
  omega

/-- One valid event preserves the pool invariant, keeps the pool size,
never decreases the started counter, and dispatches exactly the requests
with the next consecutive ids. -/
theorem poolInv_step (s : PoolState) (e : PoolEvent) (hs : PoolInv s)
    (hv : validEvent s e = true) :
    PoolInv (poolStep s e).1 ∧
    (poolStep s e).1.pool.length = s.pool.length ∧
    s.started ≤ (poolStep s e).1.started ∧
    (poolStep s e).2.toList =
      List.range' s.started ((poolStep s e).1.started - s.started) := by
  obtain ⟨hq, hss, hcs, hbc, hfull⟩ := hs
  cases e with
  | submit =>
    cases hff : firstFree s.pool with
    | some i =>
      have hstep : poolStep s PoolEvent.submit =
          ({ s with pool := s.pool.set i true, submitted := s.submitted + 1,
                    started := s.started + 1 }, some s.submitted) := by
        simp [poolStep, hff]
      have hqe : s.queue = [] := by
        by_contra hne
        have h1 := hfull hne
        have h2 := busyCount_lt_of_firstFree_some s.pool i hff
        omega
      have hsub : s.submitted = s.started := by
        have h0 : s.submitted - s.started = 0 := by
          by_contra hne
          rw [show s.submitted - s.started = (s.submitted - s.started - 1) + 1
            from by omega, List.range'_succ] at hq
          rw [hqe] at hq
          exact List.noConfusion hq
        omega
      obtain ⟨hlt, hfalse⟩ := firstFree_some_spec s.pool i hff
      have hset := busyCount_set_true s.pool i hlt hfalse
      rw [hstep]
      refine ⟨⟨?_, ?_, ?_, ?_, ?_⟩, ?_, ?_, ?_⟩
      · show s.queue = List.range' (s.started + 1) (s.submitted + 1 - (s.started + 1))
        rw [hqe, hsub]
        simp
      · show s.started + 1 ≤ s.submitted + 1
        omega
      · show s.completed ≤ s.started + 1
        omega
      · show busyCount (s.pool.set i true) = s.started + 1 - s.completed
        rw [hset, hbc]
        omega
      · intro hne
        exact absurd hqe hne
      · show (s.pool.set i true).length = s.pool.length
        rw [List.length_set]
      · show s.started ≤ s.started + 1
        omega
      · show [s.submitted] = List.range' s.started (s.started + 1 - s.started)
        rw [hsub]
        simp
    | none =>
      have hstep : poolStep s PoolEvent.submit =
          ({ s with queue := s.queue ++ [s.submitted],
                    submitted := s.submitted + 1 }, none) := by
        simp [poolStep, hff]
      have hfullcount := firstFree_none_busyCount s.pool hff
      rw [hstep]
      refine ⟨⟨?_, ?_, ?_, ?_, ?_⟩, rfl, le_refl _, ?_⟩
      · show s.queue ++ [s.submitted] =
          List.range' s.started (s.submitted + 1 - s.started)
        rw [hq, show s.submitted + 1 - s.started = (s.submitted - s.started) + 1
          from by omega, List.range'_concat]
        congr 2
        omega
      · show s.started ≤ s.submitted + 1
        omega
      · exact hcs
      · exact hbc
      · intro _
        exact hfullcount
      · show ([] : List ℕ) = List.range' s.started (s.started - s.started)
        simp
  | complete i =>
    have hgetD : s.pool.getD i false = true := by
      simpa [validEvent] using hv
    cases hqcase : s.queue with
    | nil =>
      have hstep : poolStep s (PoolEvent.complete i) =
          ({ s with pool := s.pool.set i false,
                    completed := s.completed + 1 }, none) := by
        simp [poolStep, hqcase]
      have hbc1 := busyCount_set_false s.pool i hgetD
      rw [hstep]
      refine ⟨⟨?_, ?_, ?_, ?_, ?_⟩, ?_, le_refl _, ?_⟩
      · exact hq
      · exact hss
      · show s.completed + 1 ≤ s.started
        omega
      · show busyCount (s.pool.set i false) = s.started - (s.completed + 1)
        omega
      · intro hne
        exact absurd hqcase hne
      · show (s.pool.set i false).length = s.pool.length
        rw [List.length_set]
      · show ([] : List ℕ) = List.range' s.started (s.started - s.started)
        simp
    | cons qh qrest =>
      have hstep : poolStep s (PoolEvent.complete i) =
          ({ s with pool := (s.pool.set i false).set i true, queue := qrest,
                    completed := s.completed + 1,
                    started := s.started + 1 }, some qh) := by
        simp [poolStep, hqcase]
      have hpool : (s.pool.set i false).set i true = s.pool := by
        rw [List.set_set]
        exact set_true_getD_true s.pool i hgetD
      have hn1 : 1 ≤ s.submitted - s.started := by
        by_contra hzero
        have h0 : s.submitted - s.started = 0 := by omega
        rw [h0] at hq
        simp at hq
        rw [hqcase] at hq
        exact List.noConfusion hq
      have hqeq : qh :: qrest = List.range' s.started (s.submitted - s.started) := by
        rw [← hqcase]
        exact hq
      rw [show s.submitted - s.started = (s.submitted - s.started - 1) + 1
        from by omega, List.range'_succ] at hqeq
      injection hqeq with hqh hqrest
      rw [hstep]
      refine ⟨⟨?_, ?_, ?_, ?_, ?_⟩, ?_, ?_, ?_⟩
      · show qrest = List.range' (s.started + 1) (s.submitted - (s.started + 1))
        rw [hqrest]
        congr 1
      · show s.started + 1 ≤ s.submitted
        omega
      · show s.completed + 1 ≤ s.started + 1
        omega
      · show busyCount ((s.pool.set i false).set i true) =
          s.started + 1 - (s.completed + 1)
        rw [hpool]
        omega
      · intro _
        show busyCount ((s.pool.set i false).set i true) =
          ((s.pool.set i false).set i true).length
        rw [hpool]
        refine hfull ?_
        rw [hqcase]
        simp
      · show ((s.pool.set i false).set i true).length = s.pool.length
        rw [hpool]
      · show s.started ≤ s.started + 1
        omega
      · show [qh] = List.range' s.started (s.started + 1 - s.started)
        rw [hqh]
        simp

/-- Glue two consecutive ranges. -/
theorem range'_glue (a b c : ℕ) (h1 : a ≤ b) (h2 : b ≤ c) :
    List.range' a (b - a) ++ List.range' b (c - b) = List.range' a (c - a) := by
  rw [show c - a = (c - b) + (b - a) from by omega, ← List.range'_append_1,
    show a + (b - a) = b from by omega]

/-- The invariant and the dispatched-id characterisation extended along a
valid trace. -/
theorem poolInv_run : ∀ (t : List PoolEvent) (s : PoolState), PoolInv s →
    validTrace s t = true →
    PoolInv (poolRun s t).1 ∧
    (poolRun s t).1.pool.length = s.pool.length ∧
    s.started ≤ (poolRun s t).1.started ∧
    (poolRun s t).2 =
      List.range' s.started ((poolRun s t).1.started - s.started) := by
  intro t
  induction t with
  | nil =>
    intro s hs _
    exact ⟨hs, rfl, le_refl _, by simp [poolRun]⟩
  | cons e t ih =>
    intro s hs hv
    have hv1 : validEvent s e = true := by
      have h2 := hv
      simp only [validTrace, Bool.and_eq_true] at h2
      exact h2.1
    have hv2 : validTrace (poolStep s e).1 t = true := by
      have h2 := hv
      simp only [validTrace, Bool.and_eq_true] at h2
      exact h2.2
    obtain ⟨hinv2, hlen2, hmono2, hemit⟩ := poolInv_step s e hs hv1
    obtain ⟨hinvF, hlenF, hmonoF, hrunF⟩ := ih (poolStep s e).1 hinv2 hv2
    refine ⟨hinvF, ?_, le_trans hmono2 hmonoF, ?_⟩
    · show (poolRun (poolStep s e).1 t).1.pool.length = s.pool.length
      rw [hlenF, hlen2]
    · show (poolStep s e).2.toList ++ (poolRun (poolStep s e).1 t).2 = _
      rw [hemit, hrunF]
      exact range'_glue s.started (poolStep s e).1.started
        (poolRun (poolStep s e).1 t).1.started hmono2 hmonoF

/-- The startup pool satisfies the invariant. -/
theorem poolInv_init (P : ℕ) : PoolInv (initPool P) := by
  refine ⟨?_, le_refl _, le_refl _, ?_, ?_⟩
  · simp [initPool]
  · show busyCount (List.replicate P false) = 0 - 0
    unfold busyCount
    simp [List.count_replicate]
  · intro h
    exact absurd rfl h

/-- C9: over every valid event trace from startup, the worker pool
dispatches requests in exactly submission (FIFO) order, keeps at most
poolSize requests in flight (busy count = started - completed ≤ P), a
request starts only after enough completions (request n needs at least
n + 1 - P completions), a submission while the pool is saturated is
enqueued without being dispatched, and every completion with a nonempty
queue immediately dispatches the queue head. -/
theorem worker_pool_spec (P : ℕ) (t : List PoolEvent)
    (hv : validTrace (initPool P) t = true) :
    ((poolRun (initPool P) t).2 =
      List.range (poolRun (initPool P) t).1.started) ∧
    ((poolRun (initPool P) t).1.pool.length = P) ∧
    (busyCount (poolRun (initPool P) t).1.pool =
      (poolRun (initPool P) t).1.started - (poolRun (initPool P) t).1.completed) ∧
    (busyCount (poolRun (initPool P) t).1.pool ≤ P) ∧
    (∀ n, n < (poolRun (initPool P) t).1.started →
      n + 1 ≤ (poolRun (initPool P) t).1.completed + P) ∧
    (busyCount (poolRun (initPool P) t).1.pool = P →
      (poolStep (poolRun (initPool P) t).1 PoolEvent.submit).2 = none ∧
      (poolStep (poolRun (initPool P) t).1 PoolEvent.submit).1.queue =
        (poolRun (initPool P) t).1.queue ++ [(poolRun (initPool P) t).1.submitted]) ∧
    (∀ i q rest, (poolRun (initPool P) t).1.queue = q :: rest →
      (poolStep (poolRun (initPool P) t).1 (PoolEvent.complete i)).2 = some q ∧
      (poolStep (poolRun (initPool P) t).1 (PoolEvent.complete i)).1.queue = rest) := by
  obtain ⟨hinv, hlen, hmono, hrun⟩ := poolInv_run t (initPool P) (poolInv_init P) hv
  obtain ⟨hq, hss, hcs, hbc, hfull⟩ := hinv
  have hlenP : (poolRun (initPool P) t).1.pool.length = P := by
    rw [hlen]
    simp [initPool]
  have hble : busyCount (poolRun (initPool P) t).1.pool ≤ P := by
    have h2 : busyCount (poolRun (initPool P) t).1.pool ≤
        (poolRun (initPool P) t).1.pool.length := List.count_le_length _ _
    omega
  refine ⟨?_, hlenP, hbc, hble, ?_, ?_, ?_⟩
  · have h0 : (initPool P).started = 0 := rfl
    rw [hrun, h0, Nat.sub_zero, List.range_eq_range']
  · intro n hn
    omega
  · intro hsat
    have hff : firstFree (poolRun (initPool P) t).1.pool = none := by
      apply firstFree_eq_none_of_full
      rw [hsat, hlenP]
    constructor
    · simp [poolStep, hff]
    · simp [poolStep, hff]
  · intro i q rest hqe
    constructor
    · simp [poolStep, hqe]
    · simp [poolStep, hqe]

/-- Witness for worker_pool_spec: one worker, two submissions, one
completion; the trace is valid, the dispatched ids are [0, 1] in
submission order, and the counters obey the bound. -/
theorem worker_pool_spec_witness :
    validTrace (initPool 1) c9WitnessTrace = true ∧
    (poolRun (initPool 1) c9WitnessTrace).2 =
      List.range (poolRun (initPool 1) c9WitnessTrace).1.started ∧
    busyCount (poolRun (initPool 1) c9WitnessTrace).1.pool ≤ 1 ∧
    (∀ n, n < (poolRun (initPool 1) c9WitnessTrace).1.started →
      n + 1 ≤ (poolRun (initPool 1) c9WitnessTrace).1.completed + 1) := by
  have h := worker_pool_spec 1 c9WitnessTrace (by decide)
  exact ⟨by decide, h.1, h.2.2.2.1, h.2.2.2.2.1⟩

end Spectro
